import Mathlib

/-!
Verification of the path-reconstruction and similarity engine of the
Corr-dashboard repository (`src/utils.py`, class `PathReconstructor`),
shallowly embedded over the real numbers.  Machine floats are idealised as
elements of `ℝ`; the few places where IEEE special values (`inf`, `nan`)
are observable in the source are modelled explicitly (`SimVal`,
`CalcError`).
-/

set_option maxHeartbeats 1000000

namespace CorrDashboard

/-- State of the bicycle-model integrator: position `(x, y)` and heading
`theta`, as mutated by the loop body of `PathReconstructor.calculate_path`. -/
structure PRState where
  x : ℝ
  y : ℝ
  theta : ℝ

/-- One iteration of the loop of `PathReconstructor.calculate_path`
(src/utils.py lines 70-91) for a sample `(angle, spd)`:

* `spd == 0`: the state is left unchanged (the source appends the current
  point and continues);
* otherwise the source sets `R = wheel_base / tan(angle)` when
  `angle != 0` and `R = inf` when `angle == 0`, then `d_theta = spd * dt / R`
  when `R != inf` and `d_theta = 0` otherwise.  Over `ℝ` the quotient
  `wheel_base / tan angle` is never the value `inf`, so the `R != inf` test
  coincides with `angle != 0`.
* the heading is updated first (`theta += d_theta`) and the position update
  then uses the already-updated heading. -/
noncomputable def pathStep (wheel_base dt : ℝ) (s : PRState) (angle spd : ℝ) : PRState :=
  if spd = 0 then s
  else
    let d_theta := if angle = 0 then 0 else spd * dt / (wheel_base / Real.tan angle)
    let theta1 := s.theta + d_theta
    { x := s.x + spd * Real.cos theta1 * dt
    , y := s.y + spd * Real.sin theta1 * dt
    , theta := theta1 }

/-- The points appended by the loop of `calculate_path`, starting from
state `s`, one point per element of the zipped `(angle, speed)` list. -/
noncomputable def calculate_pathAux (wheel_base dt : ℝ) (s : PRState) :
    List (ℝ × ℝ) → List (ℝ × ℝ)
  | [] => []
  | p :: rest =>
      let s1 := pathStep wheel_base dt s p.1 p.2
      (s1.x, s1.y) :: calculate_pathAux wheel_base dt s1 rest

/-- The trajectory produced by `calculate_path` when the time step is
well defined: the origin followed by the loop's appended points.  The
source iterates `zip(wheel_angle, speed)`, silently truncating to the
shorter series. -/
noncomputable def pathPoints (wheel_base : ℝ) (wheel_angle speed : List ℝ)
    (sampling_frequency : ℝ) : List (ℝ × ℝ) :=
  (0, 0) :: calculate_pathAux wheel_base (1 / sampling_frequency) ⟨0, 0, 0⟩
    (wheel_angle.zip speed)

/-- The ways a call into the engine can fail.  The Python source can raise
`ZeroDivisionError` (from `dt = 1 / sampling_frequency` at frequency 0);
`invalidInput` is the error class the specification asks for and is listed
here so that statements about it can be written. -/
inductive CalcError where
  | zeroDivisionError
  | invalidInput
deriving DecidableEq, Repr

/-- `PathReconstructor.calculate_path` (src/utils.py lines 56-93) as the
caller observes it: `dt = 1 / sampling_frequency` raises
`ZeroDivisionError` at frequency 0; every other input produces the full
point list.  The source performs no validation of series lengths,
emptiness or the sign of the frequency. -/
noncomputable def calculate_path (wheel_base : ℝ) (wheel_angle speed : List ℝ)
    (sampling_frequency : ℝ) : Except CalcError (List (ℝ × ℝ)) :=
  if sampling_frequency = 0 then .error .zeroDivisionError
  else .ok (pathPoints wheel_base wheel_angle speed sampling_frequency)

/-- Euclidean distance between two points of the plane. -/
noncomputable def euclid (p q : ℝ × ℝ) : ℝ :=
  Real.sqrt ((p.1 - q.1) ^ 2 + (p.2 - q.2) ^ 2)

/-- Result of the similarity computation as a numpy float: either a real
number or the float `nan` (which the source can produce, see `simIndex`). -/
inductive SimVal where
  | val (x : ℝ)
  | nan

/-- Origin translation `x -= x[0]` performed by `calculate_similarity`
(src/utils.py lines 107-110).  This augmented assignment acts in place on
the caller's numpy array; on an empty array the source would raise
`IndexError` (trajectories are nonempty by construction). -/
noncomputable def translate (v : List ℝ) : List ℝ :=
  v.map (fun a => a - v.headD 0)

/-- Value of `np.interp(t, np.linspace(0, 1, n), fp)` for `t ∈ [0, 1]`:
piecewise-linear interpolation of the samples `fp` over the uniform grid
with `n` nodes (node `i` at parameter `i / (n - 1)`).  The engine always
calls it with `n` equal to the length of the corresponding x-array. -/
noncomputable def interpUniform (n : ℕ) (fp : List ℝ) (t : ℝ) : ℝ :=
  let p := t * ((n - 1 : ℕ) : ℝ)
  let i := (⌊p⌋).toNat
  if n - 1 ≤ i then fp.getLastD 0
  else fp.getD i 0 + (p - (i : ℝ)) * (fp.getD (i + 1) 0 - fp.getD i 0)

/-- `np.interp(np.linspace(0, 1, L), np.linspace(0, 1, n), fp)`
(src/utils.py lines 117-120): resampling onto `L` uniformly spaced
parameter values in `[0, 1]`. -/
noncomputable def resample (n : ℕ) (fp : List ℝ) (L : ℕ) : List ℝ :=
  (List.range L).map (fun j : ℕ => interpUniform n fp ((j : ℝ) / ((L - 1 : ℕ) : ℝ)))

/-- The four resampled coordinate arrays built by `calculate_similarity`
(src/utils.py lines 112-120). -/
structure SimData where
  x1r : List ℝ
  y1r : List ℝ
  x2r : List ℝ
  y2r : List ℝ

/-- Translation and resampling steps of `calculate_similarity`:
both trajectories are translated to their own origin, then resampled to
the common length `max len1 len2`; the grid length for `y1` is `len1 =
len(x1)` and for `y2` is `len2 = len(x2)`, as in the source. -/
noncomputable def simResampled (path1 path2 : List ℝ × List ℝ) : SimData :=
  let x1 := translate path1.1
  let y1 := translate path1.2
  let x2 := translate path2.1
  let y2 := translate path2.2
  let len1 := x1.length
  let len2 := x2.length
  let length := max len1 len2
  ⟨resample len1 x1 length, resample len1 y1 length,
    resample len2 x2 length, resample len2 y2 length⟩

/-- Per-point Euclidean distance array between the resampled paths
(src/utils.py line 123). -/
noncomputable def simDistance (d : SimData) : List ℝ :=
  List.zipWith (fun p q => Real.sqrt ((p.1 - q.1) ^ 2 + (p.2 - q.2) ^ 2))
    (d.x1r.zip d.y1r) (d.x2r.zip d.y2r)

/-- `np.max` of a list (the source raises on an empty array; the value at
`[]` is irrelevant for reachable inputs). -/
noncomputable def listMax : List ℝ → ℝ
  | [] => 0
  | h :: t => t.foldl max h

/-- `np.min` of a list. -/
noncomputable def listMin : List ℝ → ℝ
  | [] => 0
  | h :: t => t.foldl min h

/-- Normalization scale of `calculate_similarity` (src/utils.py line
126): the diagonal extent of path1's resampled bounding box. -/
noncomputable def simScale (d : SimData) : ℝ :=
  Real.sqrt ((listMax d.x1r - listMin d.x1r) ^ 2 +
    (listMax d.y1r - listMin d.y1r) ^ 2)

open Classical in
/-- `1 - np.clip(np.mean(distance / max_distance), 0, 1)` (src/utils.py
line 127) with numpy float semantics made explicit.  `distance` is an
array of Euclidean norms, hence each entry is nonnegative:

* empty `distance` (both paths empty): `np.mean([])` is `nan`, and both
  `np.clip` and the subtraction propagate it;
* `max_distance == 0`: a zero entry gives the ratio `0/0 = nan`, which
  makes the mean `nan`; otherwise every ratio is `+inf`, the mean is
  `+inf`, `np.clip(+inf, 0, 1) = 1` and the similarity is `0`;
* otherwise all values are finite reals. -/
noncomputable def simIndex (distance : List ℝ) (max_distance : ℝ) : SimVal :=
  if distance = [] then SimVal.nan
  else if max_distance = 0 then
    if ∃ d ∈ distance, d = 0 then SimVal.nan else SimVal.val 0
  else
    SimVal.val (1 - min 1 (max 0
      ((distance.map (fun d => d / max_distance)).sum / (distance.length : ℝ))))

/-- `PathReconstructor.calculate_similarity` (src/utils.py lines 95-129):
the returned similarity index. -/
noncomputable def calculate_similarity (path1 path2 : List ℝ × List ℝ) : SimVal :=
  simIndex (simDistance (simResampled path1 path2))
    (simScale (simResampled path1 path2))

/-- `calculate_similarity` together with the caller-visible final
contents of the four argument arrays: the augmented assignments
`x1 -= x1[0]` etc. write the translated values back into the caller's
numpy arrays in place, so after the call the stored arrays hold the
origin-translated values. -/
noncomputable def calculate_similarity_state (path1 path2 : List ℝ × List ℝ) :
    SimVal × ((List ℝ × List ℝ) × (List ℝ × List ℝ)) :=
  (calculate_similarity path1 path2,
    ((translate path1.1, translate path1.2),
      (translate path2.1, translate path2.2)))

/-- Write one entry of the similarity matrix (`similarity_matrix[i, j] = v`). -/
def mset (M : ℕ → ℕ → SimVal) (i j : ℕ) (v : SimVal) : ℕ → ℕ → SimVal :=
  fun a b => if a = i ∧ b = j then v else M a b

/-- The pairwise similarity of entries `i` and `j` of the trajectory
list, as read by the matrix loop (`paths[name1]`, `paths[name2]`). -/
noncomputable def simOf (ps : List (List ℝ × List ℝ)) (i j : ℕ) : SimVal :=
  calculate_similarity (ps.getD i ([], [])) (ps.getD j ([], []))

/-- Body of the inner loop of `calculate_similarity_matrix` (src/utils.py
lines 142-145): for `i <= j` compute the similarity once and write it to
both `[i, j]` and `[j, i]`; otherwise leave the matrix unchanged. -/
noncomputable def innerStep (ps : List (List ℝ × List ℝ)) (i : ℕ)
    (M : ℕ → ℕ → SimVal) (j : ℕ) : ℕ → ℕ → SimVal :=
  if i ≤ j then
    mset (mset M i j (simOf ps i j)) j i (simOf ps i j)
  else M

/-- One iteration of the outer loop (src/utils.py line 141): run the
inner loop over all column indices `j` in range. -/
noncomputable def outerStep (ps : List (List ℝ × List ℝ))
    (M : ℕ → ℕ → SimVal) (i : ℕ) : ℕ → ℕ → SimVal :=
  (List.range ps.length).foldl (innerStep ps i) M

/-- The nested loop of `calculate_similarity_matrix` (src/utils.py lines
139-145): starting from `np.zeros`, for each `i` and `j` in range with
`i <= j`, compute the pairwise similarity once and mirror it.  In the
source each inner call re-translates the stored arrays in place; since
the translation is idempotent on values, every call computes the same
number as on the caller's original arrays, which is what this value-level
model passes in. -/
noncomputable def simMatrixFold (ps : List (List ℝ × List ℝ)) : ℕ → ℕ → SimVal :=
  (List.range ps.length).foldl (outerStep ps) (fun _ _ => SimVal.val 0)

/-- The `pd.DataFrame(similarity_matrix, index=names, columns=names)`
result: row labels, column labels, and the numeric entries. -/
structure SimMatrix where
  index : List String
  columns : List String
  entry : ℕ → ℕ → SimVal

/-- `PathReconstructor.calculate_similarity_matrix` (src/utils.py lines
131-147).  The input dictionary is modelled as an association list in its
iteration order; its keys are unique, so `paths[names[i]]` is entry `i`
of the list. -/
noncomputable def calculate_similarity_matrix
    (paths : List (String × (List ℝ × List ℝ))) : SimMatrix :=
  ⟨paths.map Prod.fst, paths.map Prod.fst, simMatrixFold (paths.map Prod.snd)⟩

lemma pathStep_spd_zero (wheel_base dt : ℝ) (s : PRState) (angle : ℝ) :
    pathStep wheel_base dt s angle 0 = s := by
  simp [pathStep]

lemma calculate_pathAux_length (wheel_base dt : ℝ) :
    ∀ (l : List (ℝ × ℝ)) (s : PRState),
      (calculate_pathAux wheel_base dt s l).length = l.length
  | [], _ => rfl
  | _ :: rest, s => by
      simp [calculate_pathAux, calculate_pathAux_length wheel_base dt rest]

/-- C1: for every synchronized sample with nonzero speed, the step of
`calculate_path` first updates the heading by
`d_theta = spd * dt * tan angle / wheel_base` (0 when `angle = 0`) and then
advances the position with the already-updated heading:
`x += spd * cos theta * dt`, `y += spd * sin theta * dt`, where
`dt = 1 / sampling_frequency`. -/
theorem c1_heading_updated_before_position (wheel_base f : ℝ) (s : PRState)
    (angle spd : ℝ) (hspd : spd ≠ 0) :
    pathStep wheel_base (1 / f) s angle spd =
      { x := s.x + spd * Real.cos (s.theta +
              (if angle = 0 then 0 else spd * (1 / f) * Real.tan angle / wheel_base)) * (1 / f)
      , y := s.y + spd * Real.sin (s.theta +
              (if angle = 0 then 0 else spd * (1 / f) * Real.tan angle / wheel_base)) * (1 / f)
      , theta := s.theta +
              (if angle = 0 then 0 else spd * (1 / f) * Real.tan angle / wheel_base) } := by
  unfold pathStep
  rw [if_neg hspd]
  by_cases ha : angle = 0
  · simp [ha]
  · simp only [if_neg ha, div_div_eq_mul_div]

/-- Closed instance of C1 at `wheel_base = 2.5`, `f = 2`, zero state,
`angle = 0`, `spd = 4`. -/
theorem c1_witness :
    pathStep 2.5 (1 / 2) ⟨0, 0, 0⟩ 0 4 =
      { x := 0 + 4 * Real.cos ((0 : ℝ) +
              (if (0 : ℝ) = 0 then 0 else 4 * (1 / 2) * Real.tan 0 / 2.5)) * (1 / 2)
      , y := 0 + 4 * Real.sin ((0 : ℝ) +
              (if (0 : ℝ) = 0 then 0 else 4 * (1 / 2) * Real.tan 0 / 2.5)) * (1 / 2)
      , theta := (0 : ℝ) +
              (if (0 : ℝ) = 0 then 0 else 4 * (1 / 2) * Real.tan 0 / 2.5) } :=
  c1_heading_updated_before_position 2.5 2 ⟨0, 0, 0⟩ 0 4 (by norm_num)

/-- C2: for equal-length input series and a positive sampling frequency,
`calculate_path` succeeds and its trajectory has exactly `n + 1` points,
the first being the origin. -/
theorem c2_length_and_origin (wheel_base f : ℝ) (wheel_angle speed : List ℝ)
    (hlen : wheel_angle.length = speed.length) (hf : 0 < f) :
    calculate_path wheel_base wheel_angle speed f =
        Except.ok (pathPoints wheel_base wheel_angle speed f) ∧
      (pathPoints wheel_base wheel_angle speed f).length = speed.length + 1 ∧
      (pathPoints wheel_base wheel_angle speed f).headD (0, 0) = (0, 0) := by
  refine ⟨?_, ?_, rfl⟩
  · unfold calculate_path
    rw [if_neg (ne_of_gt hf)]
  · unfold pathPoints
    simp [calculate_pathAux_length, hlen]

/-- Closed instance of C2 at `wheel_angle = [0]`, `speed = [1]`, `f = 2`. -/
theorem c2_witness :
    calculate_path 2.5 [0] [1] 2 = Except.ok (pathPoints 2.5 [0] [1] 2) ∧
      (pathPoints 2.5 [(0 : ℝ)] [1] 2).length = [(1 : ℝ)].length + 1 ∧
      (pathPoints 2.5 [(0 : ℝ)] [1] 2).headD (0, 0) = (0, 0) :=
  c2_length_and_origin 2.5 2 [0] [1] rfl (by norm_num)

lemma calculate_pathAux_all_zero_speed (wheel_base dt : ℝ) :
    ∀ (l : List (ℝ × ℝ)) (s : PRState), (∀ p ∈ l, p.2 = 0) →
      calculate_pathAux wheel_base dt s l = List.replicate l.length (s.x, s.y)
  | [], _, _ => rfl
  | p :: rest, s, h => by
      have hp : p.2 = 0 := h p (List.mem_cons_self p rest)
      have hrest : ∀ q ∈ rest, q.2 = 0 := fun q hq => h q (List.mem_cons_of_mem p hq)
      simp only [calculate_pathAux, hp, pathStep_spd_zero, List.length_cons,
        List.replicate_succ]
      exact congrArg _ (calculate_pathAux_all_zero_speed wheel_base dt rest s hrest)

lemma zip_replicate_eq {α β : Type} (a : α) (b : β) :
    ∀ n : ℕ, (List.replicate n a).zip (List.replicate n b) = List.replicate n (a, b)
  | 0 => rfl
  | n + 1 => by
      simp only [List.replicate_succ, List.zip_cons_cons]
      exact congrArg _ (zip_replicate_eq a b n)

lemma pathStep_zero_angle (wheel_base dt : ℝ) (s : PRState) (v : ℝ)
    (hth : s.theta = 0) : pathStep wheel_base dt s 0 v = ⟨s.x + v * dt, s.y, 0⟩ := by
  by_cases hv : v = 0
  · subst hv
    rw [pathStep_spd_zero]
    cases s with
    | mk x y theta => simp_all
  · simp [pathStep, hv, hth]

lemma calculate_pathAux_straight (wheel_base dt v : ℝ) :
    ∀ (n : ℕ) (x0 y0 : ℝ),
      calculate_pathAux wheel_base dt ⟨x0, y0, 0⟩ (List.replicate n (0, v)) =
        (List.range n).map (fun k : ℕ => (x0 + ((k : ℝ) + 1) * (v * dt), y0))
  | 0, _, _ => rfl
  | n + 1, x0, y0 => by
      rw [List.replicate_succ]
      have hstep : pathStep wheel_base dt ⟨x0, y0, 0⟩ 0 v = ⟨x0 + v * dt, y0, 0⟩ :=
        pathStep_zero_angle wheel_base dt ⟨x0, y0, 0⟩ v rfl
      simp only [calculate_pathAux, hstep]
      rw [calculate_pathAux_straight wheel_base dt v n (x0 + v * dt) y0,
        List.range_succ_eq_map, List.map_cons, List.map_map]
      congr 1
      · simp
      · refine (List.map_congr_left fun a _ => ?_).symm
        simp only [Function.comp_apply, Prod.mk.injEq]
        refine ⟨?_, trivial⟩
        push_cast
        ring

/-- C3: a zero-speed sample leaves both the position and the heading
unchanged and the loop appends the current point; consequently an
all-zero speed series of length `n` (any angle series of the same
length) yields the origin repeated `n + 1` times. -/
theorem c3_zero_speed_stationary :
    (∀ (wheel_base dt : ℝ) (s : PRState) (angle : ℝ),
        pathStep wheel_base dt s angle 0 = s) ∧
    (∀ (wheel_base dt : ℝ) (s : PRState) (angle : ℝ) (l : List (ℝ × ℝ)),
        calculate_pathAux wheel_base dt s ((angle, 0) :: l) =
          (s.x, s.y) :: calculate_pathAux wheel_base dt s l) ∧
    (∀ (wheel_base f : ℝ) (wheel_angle speed : List ℝ),
        wheel_angle.length = speed.length → (∀ v ∈ speed, v = 0) →
        pathPoints wheel_base wheel_angle speed f =
          List.replicate (speed.length + 1) (0, 0)) := by
  refine ⟨pathStep_spd_zero, ?_, ?_⟩
  · intro wheel_base dt s angle l
    simp [calculate_pathAux, pathStep_spd_zero]
  · intro wheel_base f wheel_angle speed hlen hz
    unfold pathPoints
    have hz2 : ∀ p ∈ wheel_angle.zip speed, (p : ℝ × ℝ).2 = 0 := by
      intro p hp
      exact hz p.2 (List.of_mem_zip hp).2
    rw [calculate_pathAux_all_zero_speed _ _ _ _ hz2, List.replicate_succ]
    simp [List.length_zip, hlen]

/-- Closed instance of C3: a zero-speed step keeps the state, and the
all-zero speed series `[0, 0]` with angles `[1, 2]` stays at the origin
for all three output points. -/
theorem c3_witness :
    pathStep 2.5 1 ⟨3, 4, 5⟩ 7 0 = ⟨3, 4, 5⟩ ∧
      pathPoints 2.5 [1, 2] [0, 0] 10 = List.replicate 3 (0, 0) :=
  ⟨c3_zero_speed_stationary.1 2.5 1 ⟨3, 4, 5⟩ 7,
    c3_zero_speed_stationary.2.2 2.5 10 [1, 2] [0, 0] rfl (by simp)⟩

/-- C4: an all-zero wheel-angle series with constant positive speed `v`
over `n` steps at positive frequency `f` yields the straight x-axis
trajectory whose point `k` is `(k * v / f, 0)` for `k = 0 .. n`. -/
theorem c4_straight_line (wheel_base v f : ℝ) (n : ℕ) (hv : 0 < v) (hf : 0 < f) :
    pathPoints wheel_base (List.replicate n 0) (List.replicate n v) f =
      (List.range (n + 1)).map (fun k : ℕ => ((k : ℝ) * v / f, 0)) := by
  unfold pathPoints
  rw [zip_replicate_eq, calculate_pathAux_straight,
    List.range_succ_eq_map, List.map_cons, List.map_map]
  congr 1
  · simp
  · refine (List.map_congr_left fun a _ => ?_).symm
    simp only [Function.comp_apply, Prod.mk.injEq]
    refine ⟨?_, trivial⟩
    push_cast
    ring

/-- Closed instance of C4, the spec's end-to-end example:
`wheel_angle = [0,0,0,0]`, `speed = [10,10,10,10]`, `f = 10 Hz` gives
`[(0,0), (1,0), (2,0), (3,0), (4,0)]`. -/
theorem c4_witness :
    pathPoints 2.5 (List.replicate 4 0) (List.replicate 4 10) 10 =
      [(0, 0), (1, 0), (2, 0), (3, 0), (4, 0)] := by
  rw [c4_straight_line 2.5 10 10 4 (by norm_num) (by norm_num)]
  norm_num [List.range_succ]

/-- C5 is violated by the source: `calculate_path` performs no input
validation.  Mismatched-length series are silently truncated to the
shorter one and a (partial) trajectory is returned, empty series return
the one-point trajectory `[(0, 0)]`, and a negative sampling frequency is
accepted; no `InvalidInput` error exists in the source. -/
theorem c5_no_invalid_input_validation :
    calculate_path 2.5 [0, 0] [5] 1 = Except.ok [(0, 0), (5, 0)] ∧
      calculate_path 2.5 [] [] 1 = Except.ok [(0, 0)] ∧
      calculate_path 2.5 [0] [5] (-1) = Except.ok [(0, 0), (-5, 0)] := by
  refine ⟨?_, ?_, ?_⟩ <;>
    norm_num [calculate_path, pathPoints, calculate_pathAux, pathStep]

lemma euclid_disp (x y v c sn dt : ℝ) (h : sn ^ 2 + c ^ 2 = 1) :
    euclid (x, y) (x + v * c * dt, y + v * sn * dt) = |v| * |dt| := by
  unfold euclid
  have key : (x - (x + v * c * dt)) ^ 2 + (y - (y + v * sn * dt)) ^ 2 = (v * dt) ^ 2 := by
    linear_combination (v * dt) ^ 2 * h
  simp only at key ⊢
  rw [key, Real.sqrt_sq_eq_abs, abs_mul]

lemma euclid_pathStep (wheel_base dt : ℝ) (s : PRState) (a v : ℝ) :
    euclid (s.x, s.y) ((pathStep wheel_base dt s a v).x, (pathStep wheel_base dt s a v).y) =
      if v = 0 then 0 else |v| * |dt| := by
  by_cases hv : v = 0
  · subst hv
    simp [pathStep_spd_zero, euclid]
  · rw [if_neg hv]
    simp only [pathStep, if_neg hv]
    exact euclid_disp s.x s.y v _ _ dt (Real.sin_sq_add_cos_sq _)

lemma consec_dist (wheel_base dt : ℝ) :
    ∀ (l : List (ℝ × ℝ)) (s : PRState) (k : ℕ), k < l.length →
      euclid (((s.x, s.y) :: calculate_pathAux wheel_base dt s l).getD k (0, 0))
          (((s.x, s.y) :: calculate_pathAux wheel_base dt s l).getD (k + 1) (0, 0)) =
        if (l.getD k (0, 0)).2 = 0 then 0 else |(l.getD k (0, 0)).2| * |dt|
  | [], _, k, hk => absurd hk (by simp)
  | p :: rest, s, 0, _ => by
      simp only [calculate_pathAux, List.getD_cons_zero, List.getD_cons_succ]
      exact euclid_pathStep wheel_base dt s p.1 p.2
  | p :: rest, s, k + 1, hk => by
      simp only [calculate_pathAux, List.getD_cons_succ]
      exact consec_dist wheel_base dt rest (pathStep wheel_base dt s p.1 p.2) k
        (by simpa using hk)

/-- C10 amended: in the trajectory of `calculate_path` the Euclidean
distance between consecutive points `k` and `k + 1` is `0` when the
step's speed sample is `0` and `|speed_k| * dt` otherwise (the absolute
value matters: a negative speed sample still moves the vehicle by
`|speed_k| * dt`), with `dt = 1 / sampling_frequency > 0`. -/
theorem c10_step_displacement (wheel_base f : ℝ) (wheel_angle speed : List ℝ)
    (hlen : wheel_angle.length = speed.length) (hf : 0 < f) (k : ℕ)
    (hk : k < speed.length) :
    euclid ((pathPoints wheel_base wheel_angle speed f).getD k (0, 0))
        ((pathPoints wheel_base wheel_angle speed f).getD (k + 1) (0, 0)) =
      if speed.getD k 0 = 0 then 0 else |speed.getD k 0| * (1 / f) := by
  unfold pathPoints
  have hkz : k < (wheel_angle.zip speed).length := by
    rw [List.length_zip, hlen]
    simpa using hk
  have h := consec_dist wheel_base (1 / f) (wheel_angle.zip speed) ⟨0, 0, 0⟩ k hkz
  have hz : ((wheel_angle.zip speed).getD k (0, 0)).2 = speed.getD k 0 := by
    rw [List.getD_eq_getElem _ _ hkz, List.getD_eq_getElem _ _ hk]
    simp
  rw [hz, abs_of_pos (show (0 : ℝ) < 1 / f by positivity)] at h
  exact h

/-- Closed instance of the amended C10 at `wheel_angle = [0]`,
`speed = [3]`, `f = 2`, step `k = 0`. -/
theorem c10_witness :
    (0 : ℕ) < [(3 : ℝ)].length ∧
      euclid ((pathPoints 2.5 [0] [3] 2).getD 0 (0, 0))
          ((pathPoints 2.5 [0] [3] 2).getD 1 (0, 0)) =
        if [(3 : ℝ)].getD 0 0 = 0 then 0 else |[(3 : ℝ)].getD 0 0| * (1 / 2) :=
  ⟨by norm_num, c10_step_displacement 2.5 2 [0] [3] rfl (by norm_num) 0 (by norm_num)⟩

/-- C10 as stated is false: for the reverse-drive sample `speed = [-1]`
(`wheel_angle = [0]`, `f = 1`) the distance between the two consecutive
trajectory points is `1`, not `speed_0 * dt = -1`. -/
theorem c10_counterexample :
    euclid ((pathPoints 2.5 [0] [-1] 1).getD 0 (0, 0))
        ((pathPoints 2.5 [0] [-1] 1).getD 1 (0, 0)) ≠ (-1) * (1 / 1) := by
  have hpts : pathPoints 2.5 [0] [-1] 1 = [(0, 0), (-1, 0)] := by
    norm_num [pathPoints, calculate_pathAux, pathStep]
  rw [hpts]
  simp only [List.getD_cons_zero, List.getD_cons_succ]
  unfold euclid
  norm_num

lemma resample_length (n : ℕ) (fp : List ℝ) (L : ℕ) :
    (resample n fp L).length = L := by
  simp [resample]

lemma translate_eq_self_iff (v : List ℝ) : translate v = v ↔ v.headD 0 = 0 := by
  constructor
  · intro hv
    cases v with
    | nil => rfl
    | cons h t =>
        have hh : h - h = h := by
          have := congrArg (fun l => l.headD 0) hv
          simpa [translate] using this
        simpa using hh.symm
  · intro hv
    cases v with
    | nil => rfl
    | cons h t =>
        have h0 : h = 0 := by simpa using hv
        subst h0
        simp [translate]

/-- C6 amended: `calculate_similarity` is not copy-before-mutate.  The
origin translation `x1 -= x1[0]` is an in-place numpy augmented
assignment on the caller's stored arrays: after the call each of the four
stored arrays holds its origin-translated values, and a stored array is
unchanged precisely when its first element is already `0` (as is the case
for every trajectory produced by `calculate_path`, which starts at the
origin). -/
theorem c6_inplace_translation (path1 path2 : List ℝ × List ℝ) :
    (calculate_similarity_state path1 path2).2 =
        ((translate path1.1, translate path1.2),
          (translate path2.1, translate path2.2)) ∧
      (∀ v : List ℝ, translate v = v ↔ v.headD 0 = 0) :=
  ⟨rfl, translate_eq_self_iff⟩

/-- C6 as stated is false: calling `calculate_similarity` on the stored
trajectory `x1 = [1, 2], y1 = [3, 4]` leaves the caller's `x1` holding
`[0, 1]`, not the original `[1, 2]`. -/
theorem c6_counterexample :
    (calculate_similarity_state ([1, 2], [3, 4]) ([0], [0])).2.1.1 ≠ [1, 2] := by
  intro hc
  have : translate [(1 : ℝ), 2] = [1, 2] := hc
  rw [translate_eq_self_iff] at this
  norm_num at this

lemma calculate_similarity_self (p : List ℝ × List ℝ)
    (h : simScale (simResampled p p) ≠ 0) :
    calculate_similarity p p = SimVal.val 1 := by
  unfold calculate_similarity
  have hx : (simResampled p p).x2r = (simResampled p p).x1r := rfl
  have hy : (simResampled p p).y2r = (simResampled p p).y1r := rfl
  set d := simResampled p p with hd
  have hdist : simDistance d = (d.x1r.zip d.y1r).map (fun _ => (0 : ℝ)) := by
    unfold simDistance
    rw [hx, hy, List.zipWith_same]
    refine List.map_congr_left fun q _ => ?_
    simp
  have hylen : d.y1r.length = d.x1r.length := by
    rw [hd]
    simp only [simResampled, resample_length]
  by_cases hL : d.x1r.length = 0
  · exfalso
    apply h
    have hx1 : d.x1r = [] := List.length_eq_zero.mp hL
    have hy1 : d.y1r = [] := List.length_eq_zero.mp (by rw [hylen, hL])
    unfold simScale
    rw [hx1, hy1]
    norm_num [listMax, listMin]
  · have hdl : (simDistance d).length = d.x1r.length := by
      rw [hdist]
      simp [List.length_zip, hylen]
    have hne : simDistance d ≠ [] := by
      intro hc
      rw [hc] at hdl
      exact hL hdl.symm
    unfold simIndex
    rw [if_neg hne, if_neg h]
    have hmap : (simDistance d).map (fun x => x / simScale d) =
        (d.x1r.zip d.y1r).map (fun _ => (0 : ℝ)) := by
      rw [hdist, List.map_map]
      refine List.map_congr_left fun q _ => ?_
      simp
    have hsum : ((simDistance d).map (fun x => x / simScale d)).sum = 0 := by
      rw [hmap]
      exact List.sum_eq_zero fun x hx => by
        rcases List.mem_map.1 hx with ⟨a, -, ha⟩
        exact ha.symm
    rw [hsum]
    norm_num

/-- C9: for every trajectory whose resampled bounding box has nonzero
diagonal extent, `calculate_similarity` of the trajectory with itself is
exactly `1.0` (the per-point distances are exactly zero, so the clipped
mean is `0`). -/
theorem c9_self_similarity (p : List ℝ × List ℝ)
    (h : simScale (simResampled p p) ≠ 0) :
    calculate_similarity p p = SimVal.val 1 :=
  calculate_similarity_self p h

lemma resample_pair (a b : ℝ) : resample 2 [a, b] 2 = [a, b] := by
  unfold resample interpUniform
  norm_num [List.range_succ, Int.floor_one]

lemma simResampled_unit :
    simResampled ([0, 1], [0, 0]) ([0, 1], [0, 0]) =
      ⟨[0, 1], [0, 0], [0, 1], [0, 0]⟩ := by
  have h1 : translate [(0 : ℝ), 1] = [0, 1] := (translate_eq_self_iff _).mpr rfl
  have h2 : translate [(0 : ℝ), 0] = [0, 0] := (translate_eq_self_iff _).mpr rfl
  unfold simResampled
  norm_num [h1, h2, resample_pair]

lemma scale_unit :
    simScale (simResampled ([0, 1], [0, 0]) ([0, 1], [0, 0])) = 1 := by
  rw [simResampled_unit]
  unfold simScale
  norm_num [listMax, listMin, List.foldl, max_def, min_def]

/-- Closed instance of C9: the two-point trajectory `x = [0, 1]`,
`y = [0, 0]` is non-degenerate (resampled bounding-box diagonal `1`) and
its self-similarity is exactly `1.0`. -/
theorem c9_witness :
    simScale (simResampled ([0, 1], [0, 0]) ([0, 1], [0, 0])) ≠ 0 ∧
      calculate_similarity ([0, 1], [0, 0]) ([0, 1], [0, 0]) = SimVal.val 1 :=
  ⟨by rw [scale_unit]; norm_num,
    c9_self_similarity ([0, 1], [0, 0]) (by rw [scale_unit]; norm_num)⟩

lemma simResampled_degenerate :
    simResampled ([0, 0], [0, 0]) ([0, 0], [0, 0]) =
      ⟨[0, 0], [0, 0], [0, 0], [0, 0]⟩ := by
  have h2 : translate [(0 : ℝ), 0] = [0, 0] := (translate_eq_self_iff _).mpr rfl
  unfold simResampled
  norm_num [h2, resample_pair]

lemma sim_degenerate_nan :
    calculate_similarity ([0, 0], [0, 0]) ([0, 0], [0, 0]) = SimVal.nan := by
  unfold calculate_similarity
  rw [simResampled_degenerate]
  have hscale : simScale ⟨[0, 0], [0, 0], [0, 0], [0, 0]⟩ = 0 := by
    unfold simScale
    norm_num [listMax, listMin, List.foldl, max_def, min_def]
  have hdist : simDistance ⟨[0, 0], [0, 0], [0, 0], [0, 0]⟩ = [0, 0] := by
    unfold simDistance
    norm_num [List.zip_cons_cons, List.zipWith_cons_cons]
  rw [hdist, hscale]
  unfold simIndex
  rw [if_neg (by simp), if_pos rfl, if_pos ⟨0, by simp, rfl⟩]

/-- C7 is violated by the source: at zero normalization scale the mean of
`distance / max_distance` contains the ratio `0 / 0 = nan` (the first
per-point distance is always `0` there), `np.clip` and the final
subtraction propagate it, so `calculate_similarity` returns `nan` — a
non-numeric result — instead of the claimed deterministic `1.0` for
identical degenerate paths. -/
theorem c7_degenerate_similarity_nan :
    calculate_similarity ([0, 0], [0, 0]) ([0, 0], [0, 0]) = SimVal.nan ∧
      SimVal.nan ≠ SimVal.val 1 :=
  ⟨sim_degenerate_nan, by simp⟩

lemma inner_foldl_eval (ps : List (List ℝ × List ℝ)) (i : ℕ) :
    ∀ (J : List ℕ) (M : ℕ → ℕ → SimVal) (a b : ℕ),
      (J.foldl (innerStep ps i) M) a b =
        if a = i ∧ b ∈ J ∧ i ≤ b then simOf ps i b
        else if b = i ∧ a ∈ J ∧ i ≤ a then simOf ps i a
        else M a b
  | [], M, a, b => by simp
  | j :: J, M, a, b => by
      rw [List.foldl_cons, inner_foldl_eval ps i J (innerStep ps i M j) a b]
      by_cases hQ1 : a = i ∧ b ∈ J ∧ i ≤ b
      · rw [if_pos hQ1, if_pos ⟨hQ1.1, List.mem_cons_of_mem j hQ1.2.1, hQ1.2.2⟩]
      · rw [if_neg hQ1]
        by_cases hQ2 : b = i ∧ a ∈ J ∧ i ≤ a
        · rw [if_pos hQ2]
          by_cases hP1 : a = i ∧ b ∈ j :: J ∧ i ≤ b
          · rw [if_pos hP1, hP1.1, hQ2.1]
          · rw [if_neg hP1,
              if_pos ⟨hQ2.1, List.mem_cons_of_mem j hQ2.2.1, hQ2.2.2⟩]
        · rw [if_neg hQ2]
          unfold innerStep
          by_cases hij : i ≤ j
          · rw [if_pos hij]
            by_cases hP1 : a = i ∧ b ∈ j :: J ∧ i ≤ b
            · have hbj : b = j := by
                rcases List.mem_cons.1 hP1.2.1 with h | h
                · exact h
                · exact absurd ⟨hP1.1, h, hP1.2.2⟩ hQ1
              rw [if_pos hP1, hP1.1, hbj]
              simp [mset]
            · by_cases hP2 : b = i ∧ a ∈ j :: J ∧ i ≤ a
              · have haj : a = j := by
                  rcases List.mem_cons.1 hP2.2.1 with h | h
                  · exact h
                  · exact absurd ⟨hP2.1, h, hP2.2.2⟩ hQ2
                rw [if_neg hP1, if_pos hP2, haj, hP2.1]
                simp [mset]
              · rw [if_neg hP1, if_neg hP2]
                have hc1 : ¬(a = j ∧ b = i) := by
                  intro hc
                  refine hP2 ⟨hc.2, ?_, ?_⟩
                  · rw [hc.1]
                    exact List.mem_cons_self j J
                  · rw [hc.1]
                    exact hij
                have hc2 : ¬(a = i ∧ b = j) := by
                  intro hc
                  refine hP1 ⟨hc.1, ?_, ?_⟩
                  · rw [hc.2]
                    exact List.mem_cons_self j J
                  · rw [hc.2]
                    exact hij
                simp [mset, hc1, hc2]
          · rw [if_neg hij]
            have hP1 : ¬(a = i ∧ b ∈ j :: J ∧ i ≤ b) := by
              intro hc
              rcases List.mem_cons.1 hc.2.1 with h | h
              · exact hij (h ▸ hc.2.2)
              · exact hQ1 ⟨hc.1, h, hc.2.2⟩
            have hP2 : ¬(b = i ∧ a ∈ j :: J ∧ i ≤ a) := by
              intro hc
              rcases List.mem_cons.1 hc.2.1 with h | h
              · exact hij (h ▸ hc.2.2)
              · exact hQ2 ⟨hc.1, h, hc.2.2⟩
            rw [if_neg hP1, if_neg hP2]

lemma outerStep_eval (ps : List (List ℝ × List ℝ)) (i : ℕ)
    (M : ℕ → ℕ → SimVal) (a b : ℕ) :
    outerStep ps M i a b =
      if a = i ∧ b < ps.length ∧ i ≤ b then simOf ps i b
      else if b = i ∧ a < ps.length ∧ i ≤ a then simOf ps i a
      else M a b := by
  unfold outerStep
  rw [inner_foldl_eval]
  simp only [List.mem_range]

lemma outer_foldl_eval (ps : List (List ℝ × List ℝ)) :
    ∀ (I : List ℕ) (M : ℕ → ℕ → SimVal) (a b : ℕ),
      (I.foldl (outerStep ps) M) a b =
        if min a b ∈ I ∧ max a b < ps.length then simOf ps (min a b) (max a b)
        else M a b
  | [], M, a, b => by simp
  | i :: I, M, a, b => by
      rw [List.foldl_cons, outer_foldl_eval ps I (outerStep ps M i) a b]
      by_cases h1 : min a b ∈ I ∧ max a b < ps.length
      · rw [if_pos h1, if_pos ⟨List.mem_cons_of_mem i h1.1, h1.2⟩]
      · rw [if_neg h1, outerStep_eval]
        by_cases h2 : min a b = i ∧ max a b < ps.length
        · obtain ⟨h2a, h2b⟩ := h2
          have hmem : min a b ∈ i :: I := by
            rw [h2a]
            exact List.mem_cons_self i I
          rw [if_pos (show min a b ∈ i :: I ∧ max a b < ps.length from ⟨hmem, h2b⟩)]
          rcases le_or_lt a b with hab | hab
          · have e1 : a = i := by omega
            have e2 : max a b = b := by omega
            have e3 : i ≤ b := by omega
            have e4 : b < ps.length := by omega
            rw [if_pos (show a = i ∧ b < ps.length ∧ i ≤ b from ⟨e1, e4, e3⟩),
              h2a, e2]
          · have e1 : b = i := by omega
            have e2 : max a b = a := by omega
            have e3 : i ≤ a := by omega
            have e4 : a < ps.length := by omega
            have hno : ¬(a = i ∧ b < ps.length ∧ i ≤ b) := by
              intro hc
              obtain ⟨hca, hcb, hcc⟩ := hc
              omega
            rw [if_neg hno,
              if_pos (show b = i ∧ a < ps.length ∧ i ≤ a from ⟨e1, e4, e3⟩),
              h2a, e2]
        · have hrhs : ¬(min a b ∈ i :: I ∧ max a b < ps.length) := by
            intro hc
            rcases List.mem_cons.1 hc.1 with h | h
            · exact h2 ⟨h, hc.2⟩
            · exact h1 ⟨h, hc.2⟩
          have hc1 : ¬(a = i ∧ b < ps.length ∧ i ≤ b) := by
            intro hc
            obtain ⟨hca, hcb, hcc⟩ := hc
            exact h2 ⟨by omega, by omega⟩
          have hc2 : ¬(b = i ∧ a < ps.length ∧ i ≤ a) := by
            intro hc
            obtain ⟨hca, hcb, hcc⟩ := hc
            exact h2 ⟨by omega, by omega⟩
          rw [if_neg hc1, if_neg hc2, if_neg hrhs]

lemma simMatrixFold_entry (ps : List (List ℝ × List ℝ)) (a b : ℕ)
    (ha : a < ps.length) (hb : b < ps.length) :
    simMatrixFold ps a b = simOf ps (min a b) (max a b) := by
  unfold simMatrixFold
  rw [outer_foldl_eval]
  rw [if_pos ⟨List.mem_range.mpr (by omega), by omega⟩]

/-- C8 amended: for every `NamedTrajectorySet` all of whose trajectories
are non-degenerate (nonzero resampled bounding-box diagonal),
`calculate_similarity_matrix` is a square matrix indexed by the
name list (in input order) on both axes, its diagonal is exactly `1.0`,
it is symmetric, and every entry `(i, j)` is the single pairwise
similarity computed with the arguments in index order `(min i j, max i j)`
(computed once for `i ≤ j` and mirrored).  Without the non-degeneracy
hypothesis the diagonal entry of a degenerate trajectory is `nan`, not
`1.0` (see the counterexample). -/
theorem c8_matrix_properties (paths : List (String × (List ℝ × List ℝ)))
    (hnd : ∀ p ∈ paths, simScale (simResampled p.2 p.2) ≠ 0) :
    (calculate_similarity_matrix paths).index = paths.map Prod.fst ∧
      (calculate_similarity_matrix paths).columns = paths.map Prod.fst ∧
      (∀ i, i < paths.length →
        (calculate_similarity_matrix paths).entry i i = SimVal.val 1) ∧
      (∀ i j, i < paths.length → j < paths.length →
        (calculate_similarity_matrix paths).entry i j =
          (calculate_similarity_matrix paths).entry j i) ∧
      (∀ i j, i < paths.length → j < paths.length →
        (calculate_similarity_matrix paths).entry i j =
          simOf (paths.map Prod.snd) (min i j) (max i j)) := by
  have hlen : (paths.map Prod.snd).length = paths.length := List.length_map _ _
  refine ⟨rfl, rfl, ?_, ?_, ?_⟩
  · intro i hi
    show simMatrixFold (paths.map Prod.snd) i i = SimVal.val 1
    rw [simMatrixFold_entry _ i i (by omega) (by omega), Nat.min_self,
      Nat.max_self]
    unfold simOf
    rw [List.getD_eq_getElem _ _ (show i < (paths.map Prod.snd).length by omega),
      List.getElem_map]
    exact calculate_similarity_self _ (hnd _ (List.getElem_mem _))
  · intro i j hi hj
    show simMatrixFold (paths.map Prod.snd) i j =
      simMatrixFold (paths.map Prod.snd) j i
    rw [simMatrixFold_entry _ i j (by omega) (by omega),
      simMatrixFold_entry _ j i (by omega) (by omega), Nat.min_comm,
      Nat.max_comm]
  · intro i j hi hj
    exact simMatrixFold_entry _ i j (by omega) (by omega)

/-- Closed instance of the amended C8: on the one-drive set with the
non-degenerate trajectory `([0, 1], [0, 0])` the diagonal entry is
exactly `1.0`. -/
theorem c8_witness :
    (calculate_similarity_matrix [("a", ([0, 1], [0, 0]))]).entry 0 0 =
      SimVal.val 1 :=
  (c8_matrix_properties [("a", ([0, 1], [0, 0]))]
      (by
        intro p hp
        rw [List.mem_singleton] at hp
        subst hp
        show simScale (simResampled ([0, 1], [0, 0]) ([0, 1], [0, 0])) ≠ 0
        rw [scale_unit]
        norm_num)).2.2.1
    0 (by norm_num)

/-- C8 as stated is false: on the `NamedTrajectorySet` containing the
single degenerate trajectory `([0, 0], [0, 0])` (a stationary drive) the
diagonal entry of the similarity matrix is `nan`, not `1.0`. -/
theorem c8_counterexample :
    (calculate_similarity_matrix [("a", ([0, 0], [0, 0]))]).entry 0 0 ≠
      SimVal.val 1 := by
  have h : (calculate_similarity_matrix [("a", ([0, 0], [0, 0]))]).entry 0 0 =
      SimVal.nan := by
    show simMatrixFold [([0, 0], [0, 0])] 0 0 = SimVal.nan
    rw [simMatrixFold_entry [([0, 0], [0, 0])] 0 0 (by norm_num) (by norm_num)]
    simp only [Nat.min_self, Nat.max_self]
    unfold simOf
    simp only [List.getD_cons_zero]
    exact sim_degenerate_nan
  rw [h]
  simp

end CorrDashboard
